import Mathlib

/-!
Verification of the opencode-shakespeare-plugin NIP-46 remote-signing core.

This file embeds, as executable Lean definitions, the protocol-relevant parts
of the repository:

* the `nostrconnect://` invitation-URI builder `createNostrConnectURI`
  (src/signer.ts), together with a parser following the open pairing
  convention (scheme-prefixed client pubkey, repeated `relay` query
  parameters, `secret` parameter) used to state the round-trip property;
* the raw NIP-46 request/response correlation loop (`sendRequest`) and the
  one-step `connect` handshake listener of the standalone signer
  implementation;
* the BunkerSigner-based `ShakespeareSigner` facade of src/signer.ts
  (`completeConnection`, `disconnect`, `isConnected`, `ensureBunkerSigner`,
  `signEvent`, `setRelays`, `connect`, `initiateConnection`,
  `restoreCredentials`, `publishEvent`, `publishEvents`) as a state machine
  over in-memory signer state plus the persisted store
  (`loadAuthState`, `loadPendingConnection` of src/storage.ts).

External collaborators (NIP-44 decryption, JSON parsing, nip19 bech32
encoding, the relay pool, the remote signer) are inputs: they are passed to
the embedded functions as explicit function arguments or outcome values, so
every theorem quantifies over their behaviour.
-/

/-! ## Byte-level strings and WHATWG form encoding (src/signer.ts createNostrConnectURI)

`URLSearchParams` serializes to `application/x-www-form-urlencoded`: ASCII
alphanumerics and `*-._` pass through, space becomes `+`, every other byte
becomes `%XX` with uppercase hex digits. -/

/-- Byte strings: each entry is one byte of the UTF-8 form of a JS string. -/
abbrev Bytes := List Nat

/-- Bytes kept verbatim by the urlencoded serializer: ASCII alphanumerics and `*-._`. -/
def isUrlSafe (b : Nat) : Bool :=
  (0x30 ≤ b && b ≤ 0x39) || (0x41 ≤ b && b ≤ 0x5A) || (0x61 ≤ b && b ≤ 0x7A) ||
  b == 0x2A || b == 0x2D || b == 0x2E || b == 0x5F

/-- Uppercase hex digit for a nibble. -/
def hexDigit (n : Nat) : Nat :=
  if n < 10 then 0x30 + n else 0x41 + (n - 10)

/-- Encode one byte the way `URLSearchParams` does. -/
def encByte (b : Nat) : Bytes :=
  if isUrlSafe b then [b]
  else if b = 0x20 then [0x2B]
  else [0x25, hexDigit (b / 16), hexDigit (b % 16)]

/-- `application/x-www-form-urlencoded` encoding of a byte string. -/
def formEncode : Bytes → Bytes
  | [] => []
  | b :: s => encByte b ++ formEncode s

/-- Value of a hex digit byte, if it is one. -/
def hexVal (c : Nat) : Option Nat :=
  if 0x30 ≤ c ∧ c ≤ 0x39 then some (c - 0x30)
  else if 0x41 ≤ c ∧ c ≤ 0x46 then some (c - 0x41 + 10)
  else if 0x61 ≤ c ∧ c ≤ 0x66 then some (c - 0x61 + 10)
  else none

/-- `application/x-www-form-urlencoded` decoding: `+` is space, a well-formed
`%XX` escape is a byte, everything else is literal. -/
def formDecode : Bytes → Bytes
  | [] => []
  | 0x25 :: h :: l :: rest =>
    (match hexVal h, hexVal l with
     | some hv, some lv => (16 * hv + lv) :: formDecode rest
     | _, _ => 0x25 :: formDecode (h :: l :: rest))
  | b :: rest => (if b = 0x2B then 0x20 else b) :: formDecode rest
termination_by s => s.length
decreasing_by all_goals (simp_wf; all_goals omega)

/-- Join byte strings with a separator byte (JS `Array.prototype.join`). -/
def joinBytes (sep : Nat) : List Bytes → Bytes
  | [] => []
  | [x] => x
  | x :: xs => x ++ sep :: joinBytes sep xs

/-- Split a byte string on every occurrence of a separator byte. -/
def splitSep (sep : Nat) : Bytes → List Bytes
  | [] => [[]]
  | b :: rest =>
    if b = sep then [] :: splitSep sep rest
    else
      match splitSep sep rest with
      | [] => [[b]]
      | x :: xs => (b :: x) :: xs

/-- Split a byte string at the first occurrence of a separator byte. -/
def splitFirst (sep : Nat) : Bytes → Option (Bytes × Bytes)
  | [] => none
  | b :: rest =>
    if b = sep then some ([], rest)
    else
      match splitFirst sep rest with
      | none => none
      | some (x, y) => some (b :: x, y)

/-- Remove a literal leading byte sequence, if present. -/
def stripLeading : Bytes → Bytes → Option Bytes
  | [], s => some s
  | _ :: _, [] => none
  | a :: pre, b :: s => if a = b then stripLeading pre s else none

/-- Byte string of an ASCII Lean string literal. -/
def strBytes (s : String) : Bytes := s.toList.map Char.toNat

/-- Serialize one `key=value` query pair, encoding both sides. -/
def serializePair (p : Bytes × Bytes) : Bytes :=
  formEncode p.1 ++ 0x3D :: formEncode p.2

/-- `URLSearchParams.toString()`: pairs in insertion order, joined with `&`. -/
def serializeQuery (ps : List (Bytes × Bytes)) : Bytes :=
  joinBytes 0x26 (ps.map serializePair)

/-- Arguments of `createNostrConnectURI` (src/signer.ts lines 36-60). -/
structure ConnectURIParams where
  clientPubkey : Bytes
  relays : List Bytes
  secret : Bytes
  name : Option Bytes
  perms : List Bytes
deriving Repr, DecidableEq

/-- Query pairs in the insertion order of src/signer.ts: one `relay` per
relay, then `secret`, then optional `name`, then `perms` (comma-joined)
when nonempty. -/
def connectURIQueryPairs (p : ConnectURIParams) : List (Bytes × Bytes) :=
  p.relays.map (fun r => (strBytes "relay", r))
    ++ [(strBytes "secret", p.secret)]
    ++ (match p.name with
        | some n => [(strBytes "name", n)]
        | none => [])
    ++ (if p.perms.length > 0 then [(strBytes "perms", joinBytes 0x2C p.perms)] else [])

/-- `createNostrConnectURI` (src/signer.ts): the scheme, the client pubkey as
authority, `?`, then the urlencoded query. -/
def createNostrConnectURI (p : ConnectURIParams) : Bytes :=
  strBytes "nostrconnect://" ++ p.clientPubkey ++ 0x3F :: serializeQuery (connectURIQueryPairs p)

/-- What a third-party signer recovers from an invitation URI. -/
structure ParsedConnectURI where
  clientPubkey : Bytes
  relays : List Bytes
  secret : Option Bytes
deriving Repr, DecidableEq

/-- Parse one query pair: split at the first `=` and percent-decode both sides. -/
def parsePair (piece : Bytes) : Bytes × Bytes :=
  match splitFirst 0x3D piece with
  | none => (formDecode piece, [])
  | some (k, v) => (formDecode k, formDecode v)

/-- Parser for the `nostrconnect://` pairing convention: the authority is the
client pubkey, `relay` values are collected in order, `secret` is the first
`secret` value. -/
def parseNostrConnectURI (uri : Bytes) : Option ParsedConnectURI :=
  match stripLeading (strBytes "nostrconnect://") uri with
  | none => none
  | some rest =>
    match splitFirst 0x3F rest with
    | none => none
    | some (pk, query) =>
      let pairs := (splitSep 0x26 query).map parsePair
      some
        { clientPubkey := pk
          relays := (pairs.filter (fun q => q.1 = strBytes "relay")).map Prod.snd
          secret := ((pairs.filter (fun q => q.1 = strBytes "secret")).map Prod.snd).head? }

/-- All entries are genuine bytes. -/
def validBytes (s : Bytes) : Prop := ∀ b ∈ s, b < 256

/-! ## Raw NIP-46 request/response correlation and handshake listener

Embeds the standalone `ShakespeareSigner` implementation: `sendRequest`'s
response-waiting loop and `connect`'s handshake-acknowledgment loop. An
inbound relay event is reduced to the two fields the handlers read; NIP-44
decryption and `JSON.parse` are supplied as function arguments (`none`
models a thrown exception, which the handlers catch and ignore). -/

/-- The fields of an inbound kind-24133 relay event that the handlers read. -/
structure NEvent where
  content : String
  pubkey : String
deriving Repr, DecidableEq

/-- A parsed NIP-46 response object: `id`, optional `result`, optional `error`. -/
structure NIP46Response where
  id : String
  result : Option String
  error : Option String
deriving Repr, DecidableEq

/-- JS truthiness of an optional string field: defined and nonempty. -/
def jsTruthy : Option String → Bool
  | none => false
  | some s => s ≠ ""

/-- Outcome of one `sendRequest` exchange. -/
inductive ReqOutcome where
  | resolved (result : String)
  | rejectedRemote (error : String)
  | timedOut
deriving Repr, DecidableEq

/-- The `onevent` handler inside `sendRequest`: decrypt, JSON-parse, and act
only when the embedded id equals the outstanding request id; `none` means the
message was ignored. On a match, an `error` field rejects and otherwise
`result || ''` resolves. -/
def handleResponseEvent (dec : String → String → Option String)
    (parse : String → Option NIP46Response) (requestId : String) (ev : NEvent) :
    Option ReqOutcome :=
  match dec ev.content ev.pubkey with
  | none => none
  | some plain =>
    match parse plain with
    | none => none
    | some resp =>
      if resp.id = requestId then
        some (if jsTruthy resp.error then .rejectedRemote (resp.error.getD "")
              else .resolved (resp.result.getD ""))
      else none

/-- Whether an inbound event decrypts, parses, and carries the request id. -/
def matchesRequest (dec : String → String → Option String)
    (parse : String → Option NIP46Response) (requestId : String) (ev : NEvent) : Bool :=
  match dec ev.content ev.pubkey with
  | none => false
  | some plain =>
    match parse plain with
    | none => false
    | some resp => resp.id = requestId

/-- `sendRequest`'s wait: the merged inbound traffic is processed in arrival
order; the first event the handler acts on settles the promise, and a trace
that never matches ends in the timeout rejection. -/
def awaitResponse (dec : String → String → Option String)
    (parse : String → Option NIP46Response) (requestId : String) :
    List NEvent → ReqOutcome
  | [] => .timedOut
  | ev :: rest =>
    match handleResponseEvent dec parse requestId ev with
    | some o => o
    | none => awaitResponse dec parse requestId rest

/-- The `onevent` handler inside `connect`: accept a decrypted, parsed
response whose `result` is the invitation secret or the literal `'ack'`. -/
def handleConnectEvent (dec : String → String → Option String)
    (parse : String → Option NIP46Response) (secret : String) (ev : NEvent) : Bool :=
  match dec ev.content ev.pubkey with
  | none => false
  | some plain =>
    match parse plain with
    | none => false
    | some resp => resp.result = some secret || resp.result = some "ack"

/-- Outcome of `connect`'s handshake wait: the accepted event's author is
recorded as the remote signer (bunker) pubkey. -/
inductive ConnectOutcome where
  | connected (bunkerPubkey : String)
  | timedOut
deriving Repr, DecidableEq

/-- `connect`'s wait for a handshake acknowledgment over the inbound traffic. -/
def awaitConnect (dec : String → String → Option String)
    (parse : String → Option NIP46Response) (secret : String) :
    List NEvent → ConnectOutcome
  | [] => .timedOut
  | ev :: rest =>
    if handleConnectEvent dec parse secret ev then .connected ev.pubkey
    else awaitConnect dec parse secret rest

/-- The persisted auth record (storage.ts `AuthState`). -/
structure AuthState where
  clientSecretKey : String
  clientPubkey : String
  bunkerPubkey : String
  userPubkey : String
  relays : List String
  connectedAt : Nat
  permissions : List String
deriving Repr, DecidableEq

/-- The continuation of `connect` after an acknowledgment is accepted: record
the event author as bunker pubkey, try `get_public_key`, and on its failure
fall back to the bunker pubkey; then build and save the auth state and
resolve. The returned value is the in-memory `userPubkey` paired with the
saved record; the whole continuation resolves (never rejects). -/
def connectAfterAccept (eventPubkey clientNsec clientPubkey : String)
    (relays : List String) (now : Nat) (getPublicKeyReq : Except String String) :
    Except String (String × AuthState) :=
  let bunkerPubkey := eventPubkey
  let userPubkey :=
    match getPublicKeyReq with
    | .ok pk => pk
    | .error _ => bunkerPubkey
  .ok (userPubkey,
    { clientSecretKey := clientNsec
      clientPubkey := clientPubkey
      bunkerPubkey := bunkerPubkey
      userPubkey := userPubkey
      relays := relays
      connectedAt := now
      permissions := ["sign_event"] })

/-! ## Persistence boundary (src/storage.ts)

A stored record is a file that is absent, unreadable, or holds some content
string. `JSON.parse` plus the TypeScript cast is an external decoder passed as
a function argument; a `.error` models a thrown exception. `loadAuthState`
and `loadPendingConnection` wrap the read+parse in try/catch and convert
every failure to `null`. -/

/-- State of one stored record file. -/
inductive FileRead where
  | absent
  | unreadable
  | content (s : String)
deriving Repr, DecidableEq

/-- The persisted two-step-flow record as written by src/signer.ts
(`savePendingConnection` call site). -/
structure PendingDisk where
  clientSecretKey : String
  nostrconnectUri : String
  relays : List String
  createdAt : Nat
deriving Repr, DecidableEq

/-- The try body of `loadAuthState`: absent is a normal `null`, a read or
parse failure is a thrown exception. -/
def loadAuthStateBody (parse : String → Except String AuthState) :
    FileRead → Except String (Option AuthState)
  | .absent => .ok none
  | .unreadable => .error "read failed"
  | .content s =>
    match parse s with
    | .ok r => .ok (some r)
    | .error e => .error e

/-- `loadAuthState` (src/storage.ts): the try body with every thrown
exception caught and turned into `null`. -/
def loadAuthState (parse : String → Except String AuthState) (f : FileRead) :
    Option AuthState :=
  match loadAuthStateBody parse f with
  | .ok v => v
  | .error _ => none

/-- The try body of `loadPendingConnection`. -/
def loadPendingConnectionBody (parse : String → Except String PendingDisk) :
    FileRead → Except String (Option PendingDisk)
  | .absent => .ok none
  | .unreadable => .error "read failed"
  | .content s =>
    match parse s with
    | .ok r => .ok (some r)
    | .error e => .error e

/-- `loadPendingConnection` (src/storage.ts): the try body with every thrown
exception caught and turned into `null`. -/
def loadPendingConnection (parse : String → Except String PendingDisk) (f : FileRead) :
    Option PendingDisk :=
  match loadPendingConnectionBody parse f with
  | .ok v => v
  | .error _ => none

/-! ## The ShakespeareSigner facade (src/signer.ts)

The signer state machine: in-memory fields of the `ShakespeareSigner` class
plus the two persisted records, at the level of already-decoded records.
Operations on external collaborators (`BunkerSigner.fromURI`, the remote
`getPublicKey` round-trip, `nip19.decode`/`nsecEncode`, key derivation,
closing the live handle) are supplied as outcome arguments. -/

/-- In-memory two-step-flow pending connection. -/
structure PendingMem where
  clientSecretKey : String
  nostrconnectUri : String
  relays : List String
deriving Repr, DecidableEq

/-- The persisted store: the Session (auth) record and the PendingHandshake
record, each absent or present. -/
structure Store where
  auth : Option AuthState
  pending : Option PendingDisk
deriving Repr, DecidableEq

/-- In-memory fields of the `ShakespeareSigner` class; `bunkerSigner` records
whether a live BunkerSigner handle exists. -/
structure SignerMem where
  bunkerSigner : Bool
  clientSecretKey : Option String
  userPubkey : Option String
  relays : List String
  pendingConnection : Option PendingMem
deriving Repr, DecidableEq

/-- Default relays for NIP-46 communication (src/signer.ts). -/
def DEFAULT_RELAYS : List String :=
  ["wss://relay.ditto.pub", "wss://relay.primal.net"]

/-- Store with neither record present. -/
def emptyStore : Store := { auth := none, pending := none }

/-- Field initializers of the `ShakespeareSigner` class. -/
def freshMem : SignerMem :=
  { bunkerSigner := false
    clientSecretKey := none
    userPubkey := none
    relays := DEFAULT_RELAYS
    pendingConnection := none }

/-- `isConnected` (src/signer.ts): both credentials present in memory. -/
def isConnected (mem : SignerMem) : Bool :=
  mem.userPubkey.isSome && mem.clientSecretKey.isSome

/-- `setRelays` (src/signer.ts): a nonempty list replaces the relays,
an empty list restores the defaults. -/
def setRelays (rs : List String) (mem : SignerMem) : SignerMem :=
  { mem with relays := if rs.length > 0 then rs else DEFAULT_RELAYS }

/-- `restoreCredentials` as run by the constructor: decode the stored nsec;
on success adopt the stored credentials and relays (`fromBunkerOk` says
whether recreating the BunkerSigner handle succeeded); on any decode
failure leave the fresh state. -/
def restoreCredentials (dec : String → Except String (String × String))
    (fromBunkerOk : Bool) (st : Store) : SignerMem :=
  match st.auth with
  | none => freshMem
  | some a =>
    match dec a.clientSecretKey with
    | .ok (ty, data) =>
      if ty = "nsec" then
        { freshMem with
            clientSecretKey := some data
            userPubkey := some a.userPubkey
            relays := a.relays
            bunkerSigner := fromBunkerOk }
      else freshMem
    | .error _ => freshMem

/-- `ensureBunkerSigner` (src/signer.ts lines 212-245): reuse the live
handle, reject without credentials or stored auth state, otherwise
recreate the handle lazily. -/
def ensureBunkerSigner (mem : SignerMem) (st : Store) : Except String SignerMem :=
  if mem.bunkerSigner then .ok mem
  else if mem.clientSecretKey.isNone || mem.userPubkey.isNone then
    .error "Not connected. Use shakespeare_connect first."
  else
    match st.auth with
    | none => .error "No auth state found. Use shakespeare_connect first."
    | some _ => .ok { mem with bunkerSigner := true }

/-- `signEvent` (src/signer.ts): ensure a handle, then delegate to the remote
signer, whose outcome is the `remoteSign` argument. -/
def signEvent (remoteSign : Except String String) (mem : SignerMem) (st : Store) :
    Except String (String × SignerMem) :=
  match ensureBunkerSigner mem st with
  | .error e => .error e
  | .ok mem1 =>
    match remoteSign with
    | .error e => .error e
    | .ok ev => .ok (ev, mem1)

/-- `disconnect` (src/signer.ts lines 279-290): close a live handle (the
close outcome is an argument; a thrown close error propagates), null the
credentials and clear the persisted auth state. -/
def disconnect (closeResult : Except String Unit) (mem : SignerMem) (st : Store) :
    SignerMem × Store × Except String Unit :=
  if mem.bunkerSigner then
    match closeResult with
    | .error e => (mem, st, .error e)
    | .ok _ =>
      ({ mem with bunkerSigner := false, clientSecretKey := none, userPubkey := none },
       { st with auth := none }, .ok ())
  else
    ({ mem with clientSecretKey := none, userPubkey := none },
     { st with auth := none }, .ok ())

/-- String-level invitation URI, built through the byte-level
`createNostrConnectURI`. -/
def createNostrConnectURIStr (clientPubkey : String) (relays : List String)
    (secret : String) (name : Option String) (perms : List String) : String :=
  String.mk ((createNostrConnectURI
    { clientPubkey := strBytes clientPubkey
      relays := relays.map strBytes
      secret := strBytes secret
      name := name.map strBytes
      perms := perms.map strBytes }).map Char.ofNat)

/-- The shared `customRelays` adoption step at the top of `connect` and
`initiateConnection`: a nonempty custom list replaces the relays. -/
def adoptRelays (customRelays : Option (List String)) (mem : SignerMem) : SignerMem :=
  match customRelays with
  | some rs => if rs.length > 0 then { mem with relays := rs } else mem
  | none => mem

/-- One-step `connect` (src/signer.ts lines 296-352): adopt nonempty custom
relays, install a fresh client key, wait for `BunkerSigner.fromURI`, fetch
the user pubkey, persist; on failure null the key and handle and rethrow. -/
def connect (customRelays : Option (List String)) (newSecretKey : String)
    (fromURIResult : Except String Unit) (bunkerGetPublicKey : Except String String)
    (nsecEncode getPublicKey : String → String) (now : Nat)
    (mem : SignerMem) (st : Store) : SignerMem × Store × Except String Unit :=
  let mem0 := adoptRelays customRelays mem
  let mem1 := { mem0 with clientSecretKey := some newSecretKey }
  match fromURIResult with
  | .error e =>
    ({ mem1 with clientSecretKey := none, bunkerSigner := false }, st, .error e)
  | .ok _ =>
    let mem2 := { mem1 with bunkerSigner := true }
    match bunkerGetPublicKey with
    | .error e =>
      ({ mem2 with clientSecretKey := none, bunkerSigner := false }, st, .error e)
    | .ok upk =>
      let mem3 := { mem2 with userPubkey := some upk }
      let authRec : AuthState :=
        { clientSecretKey := nsecEncode newSecretKey
          clientPubkey := getPublicKey newSecretKey
          bunkerPubkey := upk
          userPubkey := upk
          relays := mem3.relays
          connectedAt := now
          permissions := ["sign_event"] }
      (mem3, { st with auth := some authRec }, .ok ())

/-- `initiateConnection` (src/signer.ts lines 358-395): adopt nonempty custom
relays, generate the invitation, store the pending connection in memory and
on disk, and return without blocking. -/
def initiateConnection (customRelays : Option (List String))
    (newSecretKey secret : String) (nsecEncode getPublicKey : String → String)
    (now : Nat) (mem : SignerMem) (st : Store) : SignerMem × Store :=
  let mem0 := adoptRelays customRelays mem
  let uri := createNostrConnectURIStr (getPublicKey newSecretKey) mem0.relays secret
    (some "Shakespeare") ["sign_event"]
  let pendingM : PendingMem :=
    { clientSecretKey := newSecretKey, nostrconnectUri := uri, relays := mem0.relays }
  let pendingD : PendingDisk :=
    { clientSecretKey := nsecEncode newSecretKey, nostrconnectUri := uri,
      relays := mem0.relays, createdAt := now }
  ({ mem0 with pendingConnection := some pendingM },
   { st with pending := some pendingD })

/-- `loadPendingConnectionFromDisk` (src/signer.ts lines 106-124): read the
persisted pending record, decode its nsec; a decode exception clears the
record; a non-nsec decode returns null without clearing. -/
def loadPendingConnectionFromDisk (dec : String → Except String (String × String))
    (st : Store) : Option PendingMem × Store :=
  match st.pending with
  | none => (none, st)
  | some p =>
    match dec p.clientSecretKey with
    | .ok (ty, data) =>
      if ty = "nsec" then
        (some { clientSecretKey := data, nostrconnectUri := p.nostrconnectUri,
                relays := p.relays }, st)
      else (none, st)
    | .error _ => (none, { st with pending := none })

/-- `completeConnection` (src/signer.ts lines 409-459): resolve the pending
connection from memory or disk, reject when none is found; wait for
`BunkerSigner.fromURI` and the user pubkey; persist the session and clear
the pending record on success, clear the pending record and rethrow on
failure. -/
def completeConnection (dec : String → Except String (String × String))
    (fromURIResult : Except String Unit) (bunkerGetPublicKey : Except String String)
    (nsecEncode getPublicKey : String → String) (now : Nat)
    (mem : SignerMem) (st : Store) : SignerMem × Store × Except String Unit :=
  let loaded :=
    match mem.pendingConnection with
    | some p => (some p, st)
    | none => loadPendingConnectionFromDisk dec st
  match loaded with
  | (none, st1) =>
    (mem, st1, .error "No pending connection. Run shakespeare_connect first.")
  | (some p, st1) =>
    match fromURIResult with
    | .error e =>
      ({ mem with pendingConnection := none }, { st1 with pending := none }, .error e)
    | .ok _ =>
      let mem1 := { mem with bunkerSigner := true }
      match bunkerGetPublicKey with
      | .error e =>
        ({ mem1 with pendingConnection := none }, { st1 with pending := none }, .error e)
      | .ok upk =>
        let mem2 :=
          { mem1 with
              userPubkey := some upk
              clientSecretKey := some p.clientSecretKey
              relays := p.relays
              pendingConnection := none }
        let authRec : AuthState :=
          { clientSecretKey := nsecEncode p.clientSecretKey
            clientPubkey := getPublicKey p.clientSecretKey
            bunkerPubkey := upk
            userPubkey := upk
            relays := p.relays
            connectedAt := now
            permissions := ["sign_event"] }
        (mem2, { st1 with auth := some authRec, pending := none }, .ok ())

/-- `publishEvent` (src/signer.ts lines 489-502): one publish attempt per
configured relay; `acc` says which relays accept; the result counts
fulfilled attempts against the configured total. -/
def publishEvent (acc : String → Bool) (relays : List String) : Nat × Nat :=
  ((relays.map acc).count true, relays.length)

/-- `publishEvents` (src/signer.ts lines 507-524): sequential per-event
publishes accumulating one success per fulfilled (event, relay) attempt,
with total = events × relays. -/
def publishEvents {E : Type} (acc : E → String → Bool) (events : List E)
    (relays : List String) : Nat × Nat :=
  (events.foldl (fun s e => s + ((relays.map (acc e)).count true)) 0,
   events.length * relays.length)

/-- States of the signer reachable through the public API starting from a
fresh store: construction (and reconstruction after a process restart over
the persisted store), `setRelays`, one-step `connect`, the two-step flow,
`signEvent` and `disconnect`, with arbitrary collaborator outcomes. -/
inductive Reachable : SignerMem → Store → Prop where
  | boot (dec : String → Except String (String × String)) (bunkerOk : Bool) :
      Reachable (restoreCredentials dec bunkerOk emptyStore) emptyStore
  | restart (dec : String → Except String (String × String)) (bunkerOk : Bool)
      (mem : SignerMem) (st : Store) :
      Reachable mem st → Reachable (restoreCredentials dec bunkerOk st) st
  | setRelaysStep (rs : List String) (mem : SignerMem) (st : Store) :
      Reachable mem st → Reachable (setRelays rs mem) st
  | connectStep (c : Option (List String)) (k : String) (f : Except String Unit)
      (g : Except String String) (ne gp : String → String) (now : Nat)
      (mem : SignerMem) (st : Store) :
      Reachable mem st →
      Reachable (connect c k f g ne gp now mem st).1 (connect c k f g ne gp now mem st).2.1
  | initiateStep (c : Option (List String)) (k s : String) (ne gp : String → String)
      (now : Nat) (mem : SignerMem) (st : Store) :
      Reachable mem st →
      Reachable (initiateConnection c k s ne gp now mem st).1
        (initiateConnection c k s ne gp now mem st).2
  | completeStep (dec : String → Except String (String × String))
      (f : Except String Unit) (g : Except String String) (ne gp : String → String)
      (now : Nat) (mem : SignerMem) (st : Store) :
      Reachable mem st →
      Reachable (completeConnection dec f g ne gp now mem st).1
        (completeConnection dec f g ne gp now mem st).2.1
  | disconnectStep (c : Except String Unit) (mem : SignerMem) (st : Store) :
      Reachable mem st →
      Reachable (disconnect c mem st).1 (disconnect c mem st).2.1
  | signStep (remote : Except String String) (mem mem1 : SignerMem) (st : Store)
      (ev : String) :
      Reachable mem st → signEvent remote mem st = .ok (ev, mem1) →
      Reachable mem1 st

/-- Inductive invariant for the relay list: the in-memory list and the relay
list of every held or persisted record are nonempty. -/
def RelaysInv (mem : SignerMem) (st : Store) : Prop :=
  mem.relays ≠ [] ∧
  (∀ p, mem.pendingConnection = some p → p.relays ≠ []) ∧
  (∀ a, st.auth = some a → a.relays ≠ []) ∧
  (∀ p, st.pending = some p → p.relays ≠ [])

/-! ## Concrete collaborator instances used by witnesses -/

/-- A decryption that rejects everything (wrong key for all traffic). -/
def decNone : String → String → Option String := fun _ _ => none

/-- A decryption that passes ciphertext through unchanged. -/
def decPlain : String → String → Option String := fun c _ => some c

/-- A JSON parse that rejects everything. -/
def parseNone : String → Option NIP46Response := fun _ => none

/-- A parse table recognising one plaintext as a NIP-46 `ack` response. -/
def parseAck : String → Option NIP46Response :=
  fun s => if s = "ackmsg" then some { id := "1", result := some "ack", error := none } else none

/-- A nip19 decoder that treats every string as an nsec payload. -/
def nip19decodeNsec : String → Except String (String × String) :=
  fun s => .ok ("nsec", s)

/-- A JSON decoder for the auth record that always throws. -/
def parseAuthFail : String → Except String AuthState := fun _ => .error "bad json"

/-- A JSON decoder for the pending record that always throws. -/
def parsePendingFail : String → Except String PendingDisk := fun _ => .error "bad json"

/-- A concrete auth record. -/
def authX : AuthState :=
  { clientSecretKey := "nsec1k", clientPubkey := "cpk", bunkerPubkey := "bpk",
    userPubkey := "upk", relays := ["wss://relay.a"], connectedAt := 7,
    permissions := ["sign_event"] }

/-- A concrete persisted pending record. -/
def pendingDiskX : PendingDisk :=
  { clientSecretKey := "nsec1p", nostrconnectUri := "nostrconnect://cpk?x",
    relays := ["wss://relay.a"], createdAt := 3 }

/-- A concrete in-memory pending record. -/
def pendingMemX : PendingMem :=
  { clientSecretKey := "k", nostrconnectUri := "nostrconnect://cpk?x",
    relays := ["wss://relay.a"] }

/-- A concrete store with both records present. -/
def storeX : Store := { auth := some authX, pending := some pendingDiskX }

/-- A concrete signer state with a live handle and a pending connection. -/
def memX : SignerMem :=
  { bunkerSigner := true, clientSecretKey := some "k", userPubkey := some "upk",
    relays := ["wss://relay.a"], pendingConnection := some pendingMemX }

/-- Concrete invitation parameters for the round-trip witness. -/
def uriParamsX : ConnectURIParams :=
  { clientPubkey := strBytes "ab12"
    relays := [strBytes "wss://relay.a", strBytes "wss://relay.b"]
    secret := strBytes "s3cr3t"
    name := some (strBytes "Shakespeare")
    perms := [strBytes "sign_event"] }

/-! ## Helper lemmas -/

/-- Counting `true` after mapping a predicate is the filtered length. -/
theorem countTrueMap {α : Type} (f : α → Bool) (l : List α) :
    (l.map f).count true = (l.filter f).length := by
  induction l with
  | nil => simp
  | cons a t ih => cases h : f a <;> simp [List.count_cons, h, ih]

/-- The success fold of `publishEvents` sums the per-event accepted counts. -/
theorem foldl_add_countTrue {E : Type} (acc : E → String → Bool) (relays : List String)
    (events : List E) (n : Nat) :
    events.foldl (fun s e => s + ((relays.map (acc e)).count true)) n
      = n + ((events.map (fun e => (relays.filter (acc e)).length)).sum) := by
  induction events generalizing n with
  | nil => simp
  | cons e t ih =>
    rw [List.foldl_cons, ih]
    rw [countTrueMap, List.map_cons, List.sum_cons, Nat.add_assoc]

/-- An event is ignored by `sendRequest`'s handler iff it does not decrypt,
parse and carry the outstanding request id. -/
theorem handleResponseEvent_eq_none (dec : String → String → Option String)
    (parse : String → Option NIP46Response) (R : String) (ev : NEvent) :
    handleResponseEvent dec parse R ev = none ↔ matchesRequest dec parse R ev = false := by
  unfold handleResponseEvent matchesRequest
  cases hdec : dec ev.content ev.pubkey with
  | none => simp
  | some plain =>
    cases hp : parse plain with
    | none => simp [hp]
    | some resp => by_cases h : resp.id = R <;> simp [hp, h]

/-! ## C6: publish success accounting -/

/-- C6. For a signer configured with relay list `relays`, `publishEvent`
reports success = the number of relays that accepted and total = the number
of configured relays (zero acceptances are reported, not dropped); and
`publishEvents` over `events` reports total = events × relays and success =
the number of accepted (event, relay) pairs. -/
theorem publish_reports_accepted_over_total {E : Type} (acc : String → Bool)
    (acc2 : E → String → Bool) (events : List E) (relays : List String) :
    publishEvent acc relays = ((relays.filter acc).length, relays.length)
  ∧ publishEvents acc2 events relays =
      ((events.map (fun e => (relays.filter (acc2 e)).length)).sum,
       events.length * relays.length) := by
  constructor
  · unfold publishEvent
    rw [countTrueMap]
  · unfold publishEvents
    rw [foldl_add_countTrue]
    simp

/-! ## C4: fail-soft persistence loads -/

/-- C4. `loadAuthState` and `loadPendingConnection` return the decoded record
exactly when the file holds content the decoder accepts, and return `none` —
never propagating the read or parse error — when the record is absent,
unreadable, or fails to decode. -/
theorem load_fail_soft (parseA : String → Except String AuthState)
    (parseP : String → Except String PendingDisk) (f g : FileRead) :
    (∀ r, loadAuthState parseA f = some r ↔ ∃ s, f = .content s ∧ parseA s = .ok r)
  ∧ ((f = .absent ∨ f = .unreadable ∨ (∃ s e, f = .content s ∧ parseA s = .error e)) →
      loadAuthState parseA f = none)
  ∧ (∀ r, loadPendingConnection parseP g = some r ↔ ∃ s, g = .content s ∧ parseP s = .ok r)
  ∧ ((g = .absent ∨ g = .unreadable ∨ (∃ s e, g = .content s ∧ parseP s = .error e)) →
      loadPendingConnection parseP g = none) := by
  refine ⟨?_, ?_, ?_, ?_⟩
  · intro r
    cases f with
    | absent => simp [loadAuthState, loadAuthStateBody]
    | unreadable => simp [loadAuthState, loadAuthStateBody]
    | content s =>
      cases hp : parseA s <;> simp [loadAuthState, loadAuthStateBody, hp]
  · rintro (rfl | rfl | ⟨s, e, rfl, hp⟩) <;> simp [loadAuthState, loadAuthStateBody, *]
  · intro r
    cases g with
    | absent => simp [loadPendingConnection, loadPendingConnectionBody]
    | unreadable => simp [loadPendingConnection, loadPendingConnectionBody]
    | content s =>
      cases hp : parseP s <;> simp [loadPendingConnection, loadPendingConnectionBody, hp]
  · rintro (rfl | rfl | ⟨s, e, rfl, hp⟩) <;>
      simp [loadPendingConnection, loadPendingConnectionBody, *]

/-- Witness for C4 at concrete inputs: a corrupted auth record and an absent
pending record both load as `none`. -/
theorem load_fail_soft_witness :
    loadAuthState parseAuthFail (FileRead.content "oops") = none
  ∧ loadPendingConnection parsePendingFail FileRead.absent = none :=
  ⟨(load_fail_soft parseAuthFail parsePendingFail (.content "oops") .absent).2.1
      (Or.inr (Or.inr ⟨"oops", "bad json", rfl, rfl⟩)),
   (load_fail_soft parseAuthFail parsePendingFail (.content "oops") .absent).2.2.2
      (Or.inl rfl)⟩

/-! ## C7: get_public_key fallback in the one-step connect flow -/

/-- C7. After an accepted handshake acknowledgment, when the follow-up
`get_public_key` request fails with any error, `connect` still resolves
(returns `.ok`, surfacing no error) and records the remote signer's key —
the accepted event's author — as the user's public key both in memory and
in the persisted session record. -/
theorem connect_getPublicKey_fallback (eventPubkey clientNsec clientPubkey : String)
    (relays : List String) (now : Nat) (e : String) :
    connectAfterAccept eventPubkey clientNsec clientPubkey relays now (.error e)
      = .ok (eventPubkey,
          { clientSecretKey := clientNsec
            clientPubkey := clientPubkey
            bunkerPubkey := eventPubkey
            userPubkey := eventPubkey
            relays := relays
            connectedAt := now
            permissions := ["sign_event"] }) := rfl

/-! ## C1: sendRequest ignores unrelated traffic and resolves only on a match -/

/-- C1. `sendRequest`'s correlation loop: an inbound message that fails to
decrypt, fails to parse, or carries a different id is skipped without
erroring or resolving; a trace carrying only such traffic ends in the
timeout outcome; and any non-timeout resolution requires some event that
decrypts, parses and matches the outstanding request id. -/
theorem sendRequest_resolution_requires_matching_id
    (dec : String → String → Option String) (parse : String → Option NIP46Response)
    (R : String) :
    (∀ ev rest, matchesRequest dec parse R ev = false →
       awaitResponse dec parse R (ev :: rest) = awaitResponse dec parse R rest)
  ∧ (∀ trace : List NEvent, (∀ ev ∈ trace, matchesRequest dec parse R ev = false) →
       awaitResponse dec parse R trace = .timedOut)
  ∧ (∀ trace : List NEvent, awaitResponse dec parse R trace ≠ .timedOut →
       ∃ ev ∈ trace, matchesRequest dec parse R ev = true) := by
  have hskip : ∀ ev rest, matchesRequest dec parse R ev = false →
      awaitResponse dec parse R (ev :: rest) = awaitResponse dec parse R rest := by
    intro ev rest h
    have hn := (handleResponseEvent_eq_none dec parse R ev).mpr h
    simp [awaitResponse, hn]
  refine ⟨hskip, ?_, ?_⟩
  · intro trace h
    induction trace with
    | nil => rfl
    | cons ev rest ih =>
      rw [hskip ev rest (h ev (by simp))]
      exact ih (fun x hx => h x (by simp [hx]))
  · intro trace h
    induction trace with
    | nil => exact absurd rfl h
    | cons ev rest ih =>
      by_cases hm : matchesRequest dec parse R ev = true
      · exact ⟨ev, by simp, hm⟩
      · rw [hskip ev rest (by simpa using hm)] at h
        obtain ⟨x, hx, hmx⟩ := ih h
        exact ⟨x, by simp [hx], hmx⟩

/-- Witness for C1: with a decryption rejecting all traffic, a nonempty trace
of unrelated events times out. -/
theorem sendRequest_timeout_witness :
    awaitResponse decNone parseNone "r" [{ content := "c", pubkey := "p" }] = .timedOut :=
  (sendRequest_resolution_requires_matching_id decNone parseNone "r").2.1
    [{ content := "c", pubkey := "p" }] (by intro ev _; rfl)

/-! ## C3: the handshake listener also accepts the literal 'ack' -/

/-- C3 counterexample. With the invitation secret `"00"`, an inbound event
whose decrypted payload parses to a response with `result = "ack"` is
accepted by `connect`'s handler and resolves the flow, recording the sender
as remote signer — although its result does not equal the invitation
secret. So acceptance does not require the result to equal the secret. -/
theorem connect_accepts_ack_counterexample :
    parseAck "ackmsg" = some { id := "1", result := some "ack", error := none }
  ∧ handleConnectEvent decPlain parseAck "00"
      { content := "ackmsg", pubkey := "rspk" } = true
  ∧ awaitConnect decPlain parseAck "00"
      [{ content := "ackmsg", pubkey := "rspk" }] = .connected "rspk"
  ∧ (some "ack" : Option String) ≠ some "00" := by
  refine ⟨rfl, rfl, rfl, by decide⟩

/-- C3 amended. `connect`'s handshake wait resolves only on an inbound event
that decrypts and parses to a response whose `result` is the invitation
secret **or the literal `'ack'`**, recording that event's author as the
remote signer; every other event is ignored and the wait continues. -/
theorem connect_resolves_on_secret_or_ack (dec : String → String → Option String)
    (parse : String → Option NIP46Response) (secret : String) :
    (∀ ev, handleConnectEvent dec parse secret ev = true ↔
       ∃ plain resp, dec ev.content ev.pubkey = some plain ∧ parse plain = some resp ∧
         (resp.result = some secret ∨ resp.result = some "ack"))
  ∧ (∀ ev rest, handleConnectEvent dec parse secret ev = false →
       awaitConnect dec parse secret (ev :: rest) = awaitConnect dec parse secret rest)
  ∧ (∀ (trace : List NEvent) pk, awaitConnect dec parse secret trace = .connected pk →
       ∃ ev ∈ trace, ev.pubkey = pk ∧ handleConnectEvent dec parse secret ev = true) := by
  have hiff : ∀ ev, handleConnectEvent dec parse secret ev = true ↔
      ∃ plain resp, dec ev.content ev.pubkey = some plain ∧ parse plain = some resp ∧
        (resp.result = some secret ∨ resp.result = some "ack") := by
    intro ev
    unfold handleConnectEvent
    cases hdec : dec ev.content ev.pubkey with
    | none => simp
    | some plain =>
      cases hp : parse plain with
      | none => simp [hp]
      | some resp => simp [hp]
  refine ⟨hiff, ?_, ?_⟩
  · intro ev rest h
    simp [awaitConnect, h]
  · intro trace pk h
    induction trace with
    | nil => simp [awaitConnect] at h
    | cons ev rest ih =>
      by_cases hm : handleConnectEvent dec parse secret ev = true
      · refine ⟨ev, by simp, ?_, hm⟩
        simp [awaitConnect, hm] at h
        exact h
      · rw [show awaitConnect dec parse secret (ev :: rest)
              = awaitConnect dec parse secret rest by
            simp [awaitConnect, Bool.of_not_eq_true hm]] at h
        obtain ⟨x, hx, hpk, hmx⟩ := ih h
        exact ⟨x, by simp [hx], hpk, hmx⟩

/-- Witness for C3's amended statement: the accepted concrete `'ack'` event
yields a matching event in the trace. -/
theorem connect_resolves_witness :
    ∃ ev ∈ [({ content := "ackmsg", pubkey := "rspk" } : NEvent)],
      NEvent.pubkey ev = "rspk" ∧ handleConnectEvent decPlain parseAck "00" ev = true :=
  (connect_resolves_on_secret_or_ack decPlain parseAck "00").2.2
    [{ content := "ackmsg", pubkey := "rspk" }] "rspk" rfl

/-! ## C2: completeConnection clears the pending handshake on every exit path -/

/-- `loadPendingConnectionFromDisk` never touches the auth record. -/
theorem loadPendingConnectionFromDisk_auth (dec : String → Except String (String × String))
    (st : Store) : (loadPendingConnectionFromDisk dec st).2.auth = st.auth := by
  cases hp : st.pending with
  | none => simp [loadPendingConnectionFromDisk, hp]
  | some p =>
    cases hd : dec p.clientSecretKey with
    | ok v =>
      obtain ⟨ty, data⟩ := v
      by_cases hty : ty = "nsec" <;>
        simp [loadPendingConnectionFromDisk, hp, hd, hty]
    | error e => simp [loadPendingConnectionFromDisk, hp, hd]

/-- C2. When `completeConnection` finds a pending connection (in memory or on
disk), then on every exit path — success, remote error, and timeout alike —
both the in-memory pending connection and the persisted pending record are
cleared; on any failing exit no session is written (the stored auth record
is exactly what it was before); and a `fromURI` failure (timeout) is
reported to the caller as that error. -/
theorem completeConnection_clears_pending
    (dec : String → Except String (String × String))
    (fromURIResult : Except String Unit) (bunkerGetPublicKey : Except String String)
    (nsecEncode getPublicKey : String → String) (now : Nat)
    (mem : SignerMem) (st : Store)
    (hp : mem.pendingConnection ≠ none ∨ (loadPendingConnectionFromDisk dec st).1 ≠ none) :
    (completeConnection dec fromURIResult bunkerGetPublicKey nsecEncode getPublicKey
        now mem st).1.pendingConnection = none
  ∧ (completeConnection dec fromURIResult bunkerGetPublicKey nsecEncode getPublicKey
        now mem st).2.1.pending = none
  ∧ (∀ e, (completeConnection dec fromURIResult bunkerGetPublicKey nsecEncode getPublicKey
        now mem st).2.2 = .error e →
      (completeConnection dec fromURIResult bunkerGetPublicKey nsecEncode getPublicKey
        now mem st).2.1.auth = st.auth)
  ∧ (∀ e, fromURIResult = .error e →
      (completeConnection dec fromURIResult bunkerGetPublicKey nsecEncode getPublicKey
        now mem st).2.2 = .error e) := by
  cases hmp : mem.pendingConnection with
  | some p =>
    cases hf : fromURIResult with
    | error e =>
      refine ⟨?_, ?_, ?_, ?_⟩ <;> simp [completeConnection, hmp, hf]
    | ok u =>
      cases hg : bunkerGetPublicKey with
      | error e =>
        refine ⟨?_, ?_, ?_, ?_⟩ <;> simp [completeConnection, hmp, hf, hg]
      | ok upk =>
        refine ⟨?_, ?_, ?_, ?_⟩ <;> simp [completeConnection, hmp, hf, hg]
  | none =>
    rcases hLL : loadPendingConnectionFromDisk dec st with ⟨l1, l2⟩
    have hauth : l2.auth = st.auth := by
      have hh := loadPendingConnectionFromDisk_auth dec st
      rw [hLL] at hh
      exact hh
    cases hl1 : l1 with
    | none =>
      exfalso
      rcases hp with h | h
      · exact h hmp
      · rw [hLL] at h
        exact h hl1
    | some p =>
      subst hl1
      cases hf : fromURIResult with
      | error e =>
        refine ⟨?_, ?_, ?_, ?_⟩ <;> simp [completeConnection, hmp, hLL, hf, hauth]
      | ok u =>
        cases hg : bunkerGetPublicKey with
        | error e =>
          refine ⟨?_, ?_, ?_, ?_⟩ <;> simp [completeConnection, hmp, hLL, hf, hg, hauth]
        | ok upk =>
          refine ⟨?_, ?_, ?_, ?_⟩ <;> simp [completeConnection, hmp, hLL, hf, hg]

/-- Witness for C2: a concrete pending connection and a `fromURI` timeout
give a cleared pending handshake on both sides, an untouched auth record,
and the timeout error reported. -/
theorem completeConnection_clears_pending_witness :
    (completeConnection nip19decodeNsec (.error "Connection timeout")
        (.ok "upk") id id 0 memX storeX).1.pendingConnection = none
  ∧ (completeConnection nip19decodeNsec (.error "Connection timeout")
        (.ok "upk") id id 0 memX storeX).2.1.pending = none
  ∧ (completeConnection nip19decodeNsec (.error "Connection timeout")
        (.ok "upk") id id 0 memX storeX).2.1.auth = storeX.auth
  ∧ (completeConnection nip19decodeNsec (.error "Connection timeout")
        (.ok "upk") id id 0 memX storeX).2.2 = .error "Connection timeout" := by
  obtain ⟨h1, h2, h3, h4⟩ := completeConnection_clears_pending nip19decodeNsec
    (.error "Connection timeout") (.ok "upk") id id 0 memX storeX
    (Or.inl (by simp [memX]))
  exact ⟨h1, h2, h3 "Connection timeout" (h4 "Connection timeout" rfl),
    h4 "Connection timeout" rfl⟩

/-! ## C5: what disconnect actually clears -/

/-- C5 counterexample. `disconnect` of src/signer.ts does not satisfy the
claim: at a concrete state holding a persisted pending record, a successful
disconnect leaves the pending record in place (so a subsequent load does not
return none); and when closing the live handle fails, the error propagates
uncaught and not even the auth record is cleared. -/
theorem disconnect_counterexample :
    (disconnect (.ok ()) memX storeX).2.1.pending = some pendingDiskX
  ∧ (disconnect (.error "close failed") memX storeX).2.2 = .error "close failed"
  ∧ (disconnect (.error "close failed") memX storeX).2.1.auth = some authX := by
  refine ⟨rfl, rfl, rfl⟩

/-- C5 amended. `disconnect()` clears the in-memory credentials and the
persisted Session when no live handle exists or closing it succeeds — after
which the stored auth record is none — but it leaves the persisted
PendingHandshake record (and the in-memory pending connection) untouched;
and a close error is not swallowed: it propagates and nothing is cleared. -/
theorem disconnect_clears_auth_only (closeResult : Except String Unit)
    (mem : SignerMem) (st : Store) :
    ((mem.bunkerSigner = false ∨ closeResult = .ok ()) →
      (disconnect closeResult mem st).2.2 = .ok ()
      ∧ (disconnect closeResult mem st).1.clientSecretKey = none
      ∧ (disconnect closeResult mem st).1.userPubkey = none
      ∧ (disconnect closeResult mem st).2.1.auth = none
      ∧ (disconnect closeResult mem st).2.1.pending = st.pending
      ∧ (disconnect closeResult mem st).1.pendingConnection = mem.pendingConnection)
  ∧ (∀ e, mem.bunkerSigner = true → closeResult = .error e →
      disconnect closeResult mem st = (mem, st, .error e)) := by
  constructor
  · intro h
    cases hb : mem.bunkerSigner with
    | false => refine ⟨?_, ?_, ?_, ?_, ?_, ?_⟩ <;> simp [disconnect, hb]
    | true =>
      have hc : closeResult = .ok () := by
        rcases h with h | h
        · rw [hb] at h
          cases h
        · exact h
      subst hc
      refine ⟨?_, ?_, ?_, ?_, ?_, ?_⟩ <;> simp [disconnect, hb]
  · intro e hb hc
    subst hc
    simp [disconnect, hb]

/-- Witness for C5's amended statement at a concrete state without a live
handle: success reported, credentials and auth cleared, pending preserved. -/
theorem disconnect_clears_auth_only_witness :
    (disconnect (.ok ()) freshMem storeX).2.2 = .ok ()
  ∧ (disconnect (.ok ()) freshMem storeX).1.clientSecretKey = none
  ∧ (disconnect (.ok ()) freshMem storeX).1.userPubkey = none
  ∧ (disconnect (.ok ()) freshMem storeX).2.1.auth = none
  ∧ (disconnect (.ok ()) freshMem storeX).2.1.pending = storeX.pending
  ∧ (disconnect (.ok ()) freshMem storeX).1.pendingConnection = freshMem.pendingConnection :=
  (disconnect_clears_auth_only (.ok ()) freshMem storeX).1 (Or.inl rfl)

/-! ## C9: after disconnect, signing reports not-connected -/

/-- C9. Whenever `disconnect` completes (returns without raising), the signer
reports `isConnected = false`, and a subsequent `signEvent` — through
`ensureBunkerSigner` — yields the structured `Not connected` failure rather
than a crash or a signature from stale session state, whatever the remote
signer would have answered. -/
theorem disconnect_then_sign_not_connected (closeResult : Except String Unit)
    (mem mem1 : SignerMem) (st st1 : Store)
    (h : disconnect closeResult mem st = (mem1, st1, .ok ())) :
    isConnected mem1 = false
  ∧ ensureBunkerSigner mem1 st1 = .error "Not connected. Use shakespeare_connect first."
  ∧ ∀ remoteSign, signEvent remoteSign mem1 st1
      = .error "Not connected. Use shakespeare_connect first." := by
  have hmem : mem1.clientSecretKey = none ∧ mem1.userPubkey = none
      ∧ mem1.bunkerSigner = false := by
    cases hb : mem.bunkerSigner with
    | false =>
      rw [disconnect.eq_def, hb] at h
      simp only [Bool.false_eq_true, if_false] at h
      obtain ⟨h1, -, -⟩ := Prod.mk.injEq .. ▸ h
      rw [← h1]
      refine ⟨rfl, rfl, ?_⟩
      have hb2 := hb
      simp at hb2
      simp [hb2]
    | true =>
      rw [disconnect.eq_def, hb] at h
      cases closeResult with
      | error e => simp at h
      | ok u =>
        simp only [if_true] at h
        obtain ⟨h1, -, -⟩ := Prod.mk.injEq .. ▸ h
        rw [← h1]
        exact ⟨rfl, rfl, rfl⟩
  obtain ⟨hcs, hpk, hbk⟩ := hmem
  have hens : ensureBunkerSigner mem1 st1
      = .error "Not connected. Use shakespeare_connect first." := by
    unfold ensureBunkerSigner
    rw [hbk, hcs]
    simp
  refine ⟨?_, hens, ?_⟩
  · unfold isConnected
    rw [hcs, hpk]
    rfl
  · intro remoteSign
    unfold signEvent
    rw [hens]

/-- Witness for C9: disconnecting the fresh signer succeeds and a subsequent
sign attempt returns the not-connected failure. -/
theorem disconnect_then_sign_not_connected_witness :
    isConnected freshMem = false
  ∧ ensureBunkerSigner freshMem emptyStore
      = .error "Not connected. Use shakespeare_connect first."
  ∧ ∀ remoteSign, signEvent remoteSign freshMem emptyStore
      = .error "Not connected. Use shakespeare_connect first." :=
  disconnect_then_sign_not_connected (.ok ()) freshMem freshMem emptyStore emptyStore rfl

/-! ## C10: the relay list is never empty -/

/-- Adopting custom relays keeps the relay list nonempty. -/
theorem adoptRelays_relays (c : Option (List String)) (mem : SignerMem)
    (h : mem.relays ≠ []) : (adoptRelays c mem).relays ≠ [] := by
  cases c with
  | none => exact h
  | some rs =>
    by_cases hl : rs.length > 0
    · simp only [adoptRelays, hl, if_true]
      intro hc
      rw [hc] at hl
      simp at hl
    · simp only [adoptRelays, hl, if_false]
      exact h

/-- Adopting custom relays does not touch the pending connection. -/
theorem adoptRelays_pending (c : Option (List String)) (mem : SignerMem) :
    (adoptRelays c mem).pendingConnection = mem.pendingConnection := by
  cases c with
  | none => rfl
  | some rs => by_cases hl : rs.length > 0 <;> simp [adoptRelays, hl]

/-- The disk pending loader: it preserves the auth record, only ever clears
the pending record, and any returned pending connection takes its relays
from the stored record. -/
theorem loadPendingConnectionFromDisk_spec
    (dec : String → Except String (String × String)) (st : Store) :
    ((loadPendingConnectionFromDisk dec st).2.pending = st.pending
      ∨ (loadPendingConnectionFromDisk dec st).2.pending = none)
  ∧ (∀ p, (loadPendingConnectionFromDisk dec st).1 = some p →
      ∃ q, st.pending = some q ∧ p.relays = q.relays) := by
  cases hp : st.pending with
  | none => simp [loadPendingConnectionFromDisk, hp]
  | some q =>
    cases hd : dec q.clientSecretKey with
    | ok v =>
      obtain ⟨ty, data⟩ := v
      by_cases hty : ty = "nsec" <;>
        simp [loadPendingConnectionFromDisk, hp, hd, hty]
    | error e => simp [loadPendingConnectionFromDisk, hp, hd]

/-- A successful `ensureBunkerSigner` changes at most the handle flag. -/
theorem ensureBunkerSigner_ok (mem mem1 : SignerMem) (st : Store)
    (h : ensureBunkerSigner mem st = .ok mem1) :
    mem1.relays = mem.relays ∧ mem1.pendingConnection = mem.pendingConnection := by
  unfold ensureBunkerSigner at h
  by_cases hb : mem.bunkerSigner
  · rw [if_pos hb] at h
    injection h with h1
    subst h1
    exact ⟨rfl, rfl⟩
  · rw [if_neg hb] at h
    by_cases hc : (mem.clientSecretKey.isNone || mem.userPubkey.isNone)
    · rw [if_pos hc] at h
      cases h
    · rw [if_neg hc] at h
      cases ha : st.auth with
      | none =>
        rw [ha] at h
        cases h
      | some a =>
        rw [ha] at h
        simp only [Except.ok.injEq] at h
        subst h
        exact ⟨rfl, rfl⟩

/-- The relay-list invariant holds in every reachable state. -/
theorem relaysInv_reachable {mem : SignerMem} {st : Store}
    (h : Reachable mem st) : RelaysInv mem st := by
  induction h with
  | boot dec bOk =>
    refine ⟨?_, ?_, ?_, ?_⟩ <;>
      simp [restoreCredentials, emptyStore, freshMem, DEFAULT_RELAYS]
  | restart dec bOk mem st hr ih =>
    obtain ⟨ih1, ih2, ih3, ih4⟩ := ih
    cases ha : st.auth with
    | none => exact ⟨by simp [restoreCredentials, ha, freshMem, DEFAULT_RELAYS],
        by simp [restoreCredentials, ha, freshMem], ih3, ih4⟩
    | some a =>
      cases hd : dec a.clientSecretKey with
      | ok v =>
        obtain ⟨ty, data⟩ := v
        by_cases hty : ty = "nsec"
        · refine ⟨?_, ?_, ih3, ih4⟩
          · simp only [restoreCredentials, ha, hd, hty, if_true]
            exact ih3 a ha
          · simp [restoreCredentials, ha, hd, hty, freshMem]
        · exact ⟨by simp [restoreCredentials, ha, hd, hty, freshMem, DEFAULT_RELAYS],
            by simp [restoreCredentials, ha, hd, hty, freshMem], ih3, ih4⟩
      | error e =>
        exact ⟨by simp [restoreCredentials, ha, hd, freshMem, DEFAULT_RELAYS],
          by simp [restoreCredentials, ha, hd, freshMem], ih3, ih4⟩
  | setRelaysStep rs mem st hr ih =>
    obtain ⟨ih1, ih2, ih3, ih4⟩ := ih
    refine ⟨?_, ih2, ih3, ih4⟩
    by_cases hl : rs.length > 0
    · simp only [setRelays, hl, if_true]
      intro hc
      rw [hc] at hl
      simp at hl
    · simp [setRelays, hl, DEFAULT_RELAYS]
  | connectStep c k f g ne gp now mem st hr ih =>
    obtain ⟨ih1, ih2, ih3, ih4⟩ := ih
    have har := adoptRelays_relays c mem ih1
    have hap := adoptRelays_pending c mem
    cases f with
    | error e =>
      generalize hA : adoptRelays c mem = A at har hap
      have hC : connect c k (.error e) g ne gp now mem st
          = ({ A with clientSecretKey := none, bunkerSigner := false }, st, .error e) := by
        simp [connect, hA]
      rw [hC]
      refine ⟨har, ?_, ih3, ih4⟩
      intro p hp
      refine ih2 p ?_
      rw [← hap]
      exact hp
    | ok u =>
      cases g with
      | error e =>
        generalize hA : adoptRelays c mem = A at har hap
        have hC : connect c k (.ok u) (.error e) ne gp now mem st
            = ({ A with clientSecretKey := none, bunkerSigner := false }, st, .error e) := by
          simp [connect, hA]
        rw [hC]
        refine ⟨har, ?_, ih3, ih4⟩
        intro p hp
        refine ih2 p ?_
        rw [← hap]
        exact hp
      | ok upk =>
        generalize hA : adoptRelays c mem = A at har hap
        have hC : connect c k (.ok u) (.ok upk) ne gp now mem st
            = ({ A with
                    clientSecretKey := some k
                    bunkerSigner := true
                    userPubkey := some upk },
               { st with
                    auth := some {
                      clientSecretKey := ne k, clientPubkey := gp k,
                      bunkerPubkey := upk, userPubkey := upk, relays := A.relays,
                      connectedAt := now, permissions := ["sign_event"] } }, .ok ()) := by
          simp [connect, hA]
        rw [hC]
        refine ⟨har, ?_, ?_, ih4⟩
        · intro p hp
          refine ih2 p ?_
          rw [← hap]
          exact hp
        · intro a ha
          injection ha with ha2
          rw [← ha2]
          exact har
  | initiateStep c k sec ne gp now mem st hr ih =>
    obtain ⟨ih1, ih2, ih3, ih4⟩ := ih
    have har := adoptRelays_relays c mem ih1
    generalize hA : adoptRelays c mem = A at har
    have hC : initiateConnection c k sec ne gp now mem st
        = ({ A with
                pendingConnection := some {
                  clientSecretKey := k,
                  nostrconnectUri := createNostrConnectURIStr (gp k) A.relays sec
                    (some "Shakespeare") ["sign_event"],
                  relays := A.relays } },
           { st with
                pending := some {
                  clientSecretKey := ne k,
                  nostrconnectUri := createNostrConnectURIStr (gp k) A.relays sec
                    (some "Shakespeare") ["sign_event"],
                  relays := A.relays, createdAt := now } }) := by
      simp [initiateConnection, hA]
    rw [hC]
    refine ⟨har, ?_, ih3, ?_⟩
    · intro p hp
      injection hp with hp2
      rw [← hp2]
      exact har
    · intro p hp
      injection hp with hp2
      rw [← hp2]
      exact har
  | completeStep dec f g ne gp now mem st hr ih =>
    obtain ⟨ih1, ih2, ih3, ih4⟩ := ih
    cases hmp : mem.pendingConnection with
    | some p =>
      have hpr : p.relays ≠ [] := ih2 p hmp
      cases f with
      | error e =>
        have hC : completeConnection dec (.error e) g ne gp now mem st
            = ({ mem with pendingConnection := none },
               { st with pending := none }, .error e) := by
          simp [completeConnection, hmp]
        rw [hC]
        refine ⟨ih1, ?_, ih3, ?_⟩ <;>
          exact fun q hq => Option.noConfusion hq
      | ok u =>
        cases g with
        | error e =>
          have hC : completeConnection dec (.ok u) (.error e) ne gp now mem st
              = ({ mem with
                      bunkerSigner := true
                      pendingConnection := none },
                 { st with pending := none }, .error e) := by
            simp [completeConnection, hmp]
          rw [hC]
          refine ⟨ih1, ?_, ih3, ?_⟩ <;>
            exact fun q hq => Option.noConfusion hq
        | ok upk =>
          have hC : completeConnection dec (.ok u) (.ok upk) ne gp now mem st
              = ({ mem with
                      bunkerSigner := true
                      userPubkey := some upk
                      clientSecretKey := some p.clientSecretKey
                      relays := p.relays
                      pendingConnection := none },
                 { st with
                      auth := some {
                        clientSecretKey := ne p.clientSecretKey,
                        clientPubkey := gp p.clientSecretKey, bunkerPubkey := upk,
                        userPubkey := upk, relays := p.relays, connectedAt := now,
                        permissions := ["sign_event"] }
                      pending := none }, .ok ()) := by
            simp [completeConnection, hmp]
          rw [hC]
          refine ⟨hpr, fun q hq => Option.noConfusion hq, ?_,
            fun q hq => Option.noConfusion hq⟩
          intro a ha
          injection ha with ha2
          rw [← ha2]
          exact hpr
    | none =>
      obtain ⟨hLpend, hLrel⟩ := loadPendingConnectionFromDisk_spec dec st
      have hLauth := loadPendingConnectionFromDisk_auth dec st
      rcases hLL : loadPendingConnectionFromDisk dec st with ⟨l1, l2⟩
      rw [hLL] at hLpend hLrel hLauth
      simp only at hLpend hLrel hLauth
      have hl2auth : ∀ a, l2.auth = some a → a.relays ≠ [] := by
        intro a ha
        rw [hLauth] at ha
        exact ih3 a ha
      have hl2pend : ∀ q, l2.pending = some q → q.relays ≠ [] := by
        intro q hq
        cases hLpend with
        | inl hh =>
          rw [hh] at hq
          exact ih4 q hq
        | inr hh =>
          rw [hh] at hq
          cases hq
      cases hl1 : l1 with
      | none =>
        have hC : completeConnection dec f g ne gp now mem st
            = (mem, l2, .error "No pending connection. Run shakespeare_connect first.") := by
          simp [completeConnection, hmp, hLL, hl1]
        rw [hC]
        refine ⟨ih1, ?_, hl2auth, hl2pend⟩
        intro q hq
        rw [hmp] at hq
        cases hq
      | some p =>
        obtain ⟨q, hq, hpq⟩ := hLrel p hl1
        have hpr : p.relays ≠ [] := by
          rw [hpq]
          exact ih4 q hq
        subst hl1
        cases f with
        | error e =>
          have hC : completeConnection dec (.error e) g ne gp now mem st
              = ({ mem with pendingConnection := none },
                 { l2 with pending := none }, .error e) := by
            simp [completeConnection, hmp, hLL]
          rw [hC]
          refine ⟨ih1, ?_, hl2auth, ?_⟩ <;>
            exact fun q2 hq2 => Option.noConfusion hq2
        | ok u =>
          cases g with
          | error e =>
            have hC : completeConnection dec (.ok u) (.error e) ne gp now mem st
                = ({ mem with bunkerSigner := true, pendingConnection := none },
                   { l2 with pending := none }, .error e) := by
              simp [completeConnection, hmp, hLL]
            rw [hC]
            refine ⟨ih1, ?_, hl2auth, ?_⟩ <;>
              exact fun q2 hq2 => Option.noConfusion hq2
          | ok upk =>
            have hC : completeConnection dec (.ok u) (.ok upk) ne gp now mem st
                = ({ mem with
                        bunkerSigner := true
                        userPubkey := some upk
                        clientSecretKey := some p.clientSecretKey
                        relays := p.relays
                        pendingConnection := none },
                   { l2 with
                        auth := some {
                          clientSecretKey := ne p.clientSecretKey,
                          clientPubkey := gp p.clientSecretKey, bunkerPubkey := upk,
                          userPubkey := upk, relays := p.relays, connectedAt := now,
                          permissions := ["sign_event"] }
                        pending := none }, .ok ()) := by
              simp [completeConnection, hmp, hLL]
            rw [hC]
            refine ⟨hpr, fun q2 hq2 => Option.noConfusion hq2, ?_,
              fun q2 hq2 => Option.noConfusion hq2⟩
            intro a ha
            injection ha with ha2
            rw [← ha2]
            exact hpr
  | disconnectStep c mem st hr ih =>
    obtain ⟨ih1, ih2, ih3, ih4⟩ := ih
    cases hb : mem.bunkerSigner with
    | true =>
      cases c with
      | error e =>
        have hC : disconnect (.error e) mem st = (mem, st, .error e) := by
          simp [disconnect, hb]
        rw [hC]
        exact ⟨ih1, ih2, ih3, ih4⟩
      | ok u =>
        have hC : disconnect (.ok u) mem st
            = ({ mem with
                    bunkerSigner := false
                    clientSecretKey := none
                    userPubkey := none }, { st with auth := none }, .ok ()) := by
          simp [disconnect, hb]
        rw [hC]
        exact ⟨ih1, ih2, fun a ha => Option.noConfusion ha, ih4⟩
    | false =>
      have hC : disconnect c mem st
          = ({ mem with clientSecretKey := none, userPubkey := none },
             { st with auth := none }, .ok ()) := by
        simp [disconnect, hb]
      rw [hC]
      exact ⟨ih1, ih2, fun a ha => Option.noConfusion ha, ih4⟩
  | signStep remote mem mem1 st ev hr heq ih =>
    obtain ⟨ih1, ih2, ih3, ih4⟩ := ih
    unfold signEvent at heq
    cases hens : ensureBunkerSigner mem st with
    | error e =>
      rw [hens] at heq
      cases heq
    | ok m1 =>
      rw [hens] at heq
      cases remote with
      | error e => cases heq
      | ok sev =>
        simp only [Except.ok.injEq, Prod.mk.injEq] at heq
        obtain ⟨-, hm⟩ := heq
        obtain ⟨hrel, hpend⟩ := ensureBunkerSigner_ok mem m1 st hens
        subst hm
        refine ⟨by rw [hrel]; exact ih1, ?_, ih3, ih4⟩
        intro p hp
        rw [hpend] at hp
        exact ih2 p hp

/-- C10. In every signer state reachable through the public operations from
a fresh store, the in-memory relay list is nonempty: it starts as the
default relays, `setRelays` and the connect flows only ever install
nonempty lists. -/
theorem relays_never_empty {mem : SignerMem} {st : Store}
    (h : Reachable mem st) : mem.relays ≠ [] :=
  (relaysInv_reachable h).1

/-- Witness for C10: the freshly constructed signer over an empty store. -/
theorem relays_never_empty_witness :
    (restoreCredentials nip19decodeNsec false emptyStore).relays ≠ [] :=
  relays_never_empty (Reachable.boot nip19decodeNsec false)

/-! ## C8: invitation URI round-trip -/

/-- Hex digits never collide with the query metacharacters. -/
theorem hexDigit_ne (n : Nat) :
    hexDigit n ≠ 0x26 ∧ hexDigit n ≠ 0x3D ∧ hexDigit n ≠ 0x3F := by
  unfold hexDigit
  split <;> omega

/-- Encoding then reading back a nibble. -/
theorem hexVal_hexDigit : ∀ n, n < 16 → hexVal (hexDigit n) = some n := by decide

/-- Safe bytes are none of the bytes the decoder or the splitters treat
specially. -/
theorem isUrlSafe_spec (b : Nat) (h : isUrlSafe b = true) :
    b ≠ 0x25 ∧ b ≠ 0x2B ∧ b ≠ 0x26 ∧ b ≠ 0x3D ∧ b ≠ 0x3F := by
  simp only [isUrlSafe, Bool.or_eq_true, Bool.and_eq_true, decide_eq_true_eq,
    beq_iff_eq] at h
  omega

/-- Bytes emitted by the encoder never collide with `&`, `=` or `?`. -/
theorem mem_encByte_ne (b c : Nat) (h : c ∈ encByte b) :
    c ≠ 0x26 ∧ c ≠ 0x3D ∧ c ≠ 0x3F := by
  unfold encByte at h
  by_cases hs : isUrlSafe b
  · rw [if_pos hs] at h
    simp at h
    have hspec := isUrlSafe_spec b hs
    rw [h]
    exact ⟨hspec.2.2.1, hspec.2.2.2.1, hspec.2.2.2.2⟩
  · rw [if_neg hs] at h
    by_cases h20 : b = 0x20
    · rw [if_pos h20] at h
      simp at h
      rw [h]
      refine ⟨by decide, by decide, by decide⟩
    · rw [if_neg h20] at h
      simp at h
      rcases h with rfl | rfl | rfl
      · exact ⟨by decide, by decide, by decide⟩
      · exact hexDigit_ne _
      · exact hexDigit_ne _

/-- The encoded form of any byte string avoids `&`, `=` and `?`. -/
theorem mem_formEncode_ne (s : Bytes) (c : Nat) (h : c ∈ formEncode s) :
    c ≠ 0x26 ∧ c ≠ 0x3D ∧ c ≠ 0x3F := by
  induction s with
  | nil => simp [formEncode] at h
  | cons b t ih =>
    rw [show formEncode (b :: t) = encByte b ++ formEncode t from rfl,
      List.mem_append] at h
    rcases h with h | h
    · exact mem_encByte_ne b c h
    · exact ih h

/-- Decoding one literal (non-escape) byte. -/
theorem formDecode_cons_lit (b : Nat) (hb : b ≠ 0x25) (rest : Bytes) :
    formDecode (b :: rest) = (if b = 0x2B then 0x20 else b) :: formDecode rest := by
  match rest with
  | [] => simp [formDecode]
  | [x] => simp [formDecode]
  | x :: y :: t =>
    rw [formDecode]
    · exact fun _ _ _ h37 _ => hb h37

/-- Decoding the encoder's output for one byte recovers that byte. -/
theorem formDecode_encByte (b : Nat) (hb : b < 256) (rest : Bytes) :
    formDecode (encByte b ++ rest) = b :: formDecode rest := by
  by_cases hs : isUrlSafe b
  · have hspec := isUrlSafe_spec b hs
    rw [show encByte b = [b] from by simp [encByte, hs]]
    rw [List.singleton_append, formDecode_cons_lit b hspec.1 rest, if_neg hspec.2.1]
  · by_cases h20 : b = 0x20
    · subst h20
      rw [show encByte 0x20 = [0x2B] from by decide]
      rw [List.singleton_append, formDecode_cons_lit 0x2B (by decide) rest,
        if_pos rfl]
    · rw [show encByte b = [0x25, hexDigit (b / 16), hexDigit (b % 16)] from by
        simp [encByte, hs, h20]]
      show formDecode (0x25 :: hexDigit (b / 16) :: hexDigit (b % 16) :: rest)
        = b :: formDecode rest
      rw [formDecode]
      rw [hexVal_hexDigit (b / 16) (by omega), hexVal_hexDigit (b % 16) (by omega)]
      have hrec : 16 * (b / 16) + b % 16 = b := by omega
      simp [hrec]

/-- Decode inverts encode on genuine byte strings. -/
theorem formDecode_formEncode (s : Bytes) (h : validBytes s) :
    formDecode (formEncode s) = s := by
  induction s with
  | nil => simp [formEncode, formDecode]
  | cons b t ih =>
    rw [show formEncode (b :: t) = encByte b ++ formEncode t from rfl]
    rw [formDecode_encByte b (h b (by simp)) (formEncode t)]
    rw [ih (fun x hx => h x (by simp [hx]))]

/-- Splitting a separator-free byte string is the identity. -/
theorem splitSep_no_sep (sep : Nat) (x : Bytes) (h : sep ∉ x) :
    splitSep sep x = [x] := by
  induction x with
  | nil => rfl
  | cons b t ih =>
    have hb : b ≠ sep := fun e => h (by simp [e])
    have ht : sep ∉ t := fun hh => h (by simp [hh])
    simp [splitSep, hb, ih ht]

/-- Splitting peels off a separator-free head piece. -/
theorem splitSep_append (sep : Nat) (x t : Bytes) (h : sep ∉ x) :
    splitSep sep (x ++ sep :: t) = x :: splitSep sep t := by
  induction x with
  | nil => simp [splitSep]
  | cons b x2 ih =>
    have hb : b ≠ sep := fun e => h (by simp [e])
    have hx2 : sep ∉ x2 := fun hh => h (by simp [hh])
    simp [splitSep, hb, ih hx2]

/-- Splitting inverts joining for nonempty lists of separator-free pieces. -/
theorem splitSep_join (sep : Nat) (l : List Bytes) (hne : l ≠ [])
    (h : ∀ x ∈ l, sep ∉ x) : splitSep sep (joinBytes sep l) = l := by
  induction l with
  | nil => cases hne rfl
  | cons x xs ih =>
    cases xs with
    | nil => exact splitSep_no_sep sep x (h x (by simp))
    | cons y ys =>
      rw [show joinBytes sep (x :: y :: ys) = x ++ sep :: joinBytes sep (y :: ys) from rfl]
      rw [splitSep_append sep x _ (h x (by simp))]
      rw [ih (by simp) (fun z hz => h z (by simp [hz]))]

/-- The first-occurrence split after a separator-free prefix. -/
theorem splitFirst_append (sep : Nat) (pre post : Bytes) (h : sep ∉ pre) :
    splitFirst sep (pre ++ sep :: post) = some (pre, post) := by
  induction pre with
  | nil => simp [splitFirst]
  | cons b t ih =>
    have hb : b ≠ sep := fun e => h (by simp [e])
    have ht : sep ∉ t := fun hh => h (by simp [hh])
    simp [splitFirst, hb, ih ht]

/-- Removing a literal prefix that is present. -/
theorem stripLeading_append (pre s : Bytes) : stripLeading pre (pre ++ s) = some s := by
  induction pre with
  | nil => rfl
  | cons a t ih => simp [stripLeading, ih]

/-- Parsing a serialized pair decodes both sides. -/
theorem parsePair_serializePair (k v : Bytes) :
    parsePair (serializePair (k, v))
      = (formDecode (formEncode k), formDecode (formEncode v)) := by
  unfold parsePair serializePair
  rw [splitFirst_append 0x3D (formEncode k) (formEncode v)
    (fun h => (mem_formEncode_ne k _ h).2.1 rfl)]

/-- Serialized pairs never contain the pair separator `&`. -/
theorem amp_not_mem_serializePair (q : Bytes × Bytes) : 0x26 ∉ serializePair q := by
  intro h
  unfold serializePair at h
  rw [List.mem_append] at h
  rcases h with h | h
  · exact (mem_formEncode_ne q.1 _ h).1 rfl
  · rw [List.mem_cons] at h
    rcases h with h | h
    · exact absurd h (by decide)
    · exact (mem_formEncode_ne q.2 _ h).1 rfl

/-- Mapping serialize-then-parse over pairs decodes both components. -/
theorem map_parse_serialize (l : List (Bytes × Bytes)) :
    (l.map serializePair).map parsePair
      = l.map (fun q => (formDecode (formEncode q.1), formDecode (formEncode q.2))) := by
  rw [List.map_map]
  refine List.map_congr_left ?_
  intro q _
  show parsePair (serializePair q) = _
  rw [show serializePair q = serializePair (q.1, q.2) from rfl]
  rw [parsePair_serializePair]

/-- Filtering the decoded relay pairs by the `relay` key keeps them all. -/
theorem filter_relay_pairs (key : Bytes) (rs : List Bytes) :
    ((rs.map (fun r => (key, formDecode (formEncode r)))).filter
        (fun q => q.1 = key)).map Prod.snd
      = rs.map (fun r => formDecode (formEncode r)) := by
  induction rs with
  | nil => rfl
  | cons r t ih => simp [ih]

/-- Pairs with keys other than `k` are all filtered out. -/
theorem filter_other_pairs (k : Bytes) (l : List (Bytes × Bytes))
    (h : ∀ q ∈ l, q.1 ≠ k) : l.filter (fun q => q.1 = k) = [] := by
  induction l with
  | nil => rfl
  | cons q t ih =>
    have hq : q.1 ≠ k := h q (by simp)
    simp only [List.filter_cons, decide_eq_true_eq]
    rw [if_neg hq]
    exact ih (fun x hx => h x (by simp [hx]))

/-- The query-pair round trip: filtering the parsed pairs by key recovers the
relay list in order and the secret, whatever extra (`name`/`perms`) pairs
follow, as long as their keys decode to something else. -/
theorem roundtrip_pairs (relays : List Bytes) (secret : Bytes)
    (extra : List (Bytes × Bytes))
    (hrel : ∀ r ∈ relays, validBytes r) (hsec : validBytes secret)
    (hextra : ∀ q ∈ extra,
      formDecode (formEncode q.1) ≠ strBytes "relay"
      ∧ formDecode (formEncode q.1) ≠ strBytes "secret") :
    (((((relays.map (fun r => (strBytes "relay", r))
          ++ [(strBytes "secret", secret)] ++ extra).map serializePair).map
            parsePair).filter (fun q => q.1 = strBytes "relay")).map Prod.snd
        = relays)
  ∧ ((((((relays.map (fun r => (strBytes "relay", r))
          ++ [(strBytes "secret", secret)] ++ extra).map serializePair).map
            parsePair).filter (fun q => q.1 = strBytes "secret")).map Prod.snd).head?
        = some secret) := by
  have hkeyR : formDecode (formEncode (strBytes "relay")) = strBytes "relay" :=
    formDecode_formEncode _ (by unfold validBytes; decide)
  have hkeyS : formDecode (formEncode (strBytes "secret")) = strBytes "secret" :=
    formDecode_formEncode _ (by unfold validBytes; decide)
  rw [map_parse_serialize]
  simp only [List.map_append, List.map_map, List.map_cons, List.map_nil]
  have hcomp : ∀ r : Bytes,
      ((fun q : Bytes × Bytes => (formDecode (formEncode q.1), formDecode (formEncode q.2)))
        ∘ fun r => (strBytes "relay", r)) r
      = (strBytes "relay", formDecode (formEncode r)) := by
    intro r
    simp [Function.comp, hkeyR]
  rw [List.map_congr_left (fun r _ => hcomp r)]
  constructor
  · rw [List.filter_append, List.filter_append]
    rw [show ([((formDecode (formEncode (strBytes "secret")),
        formDecode (formEncode secret)))].filter
          (fun q => q.1 = strBytes "relay")) = [] from by
      simp [hkeyS]
      decide]
    rw [filter_other_pairs (strBytes "relay")
      (extra.map (fun q => (formDecode (formEncode q.1), formDecode (formEncode q.2))))
      (by
        intro q hq
        obtain ⟨q0, hq0, hq0e⟩ := List.mem_map.mp hq
        rw [← hq0e]
        exact (hextra q0 hq0).1)]
    rw [List.append_nil, List.append_nil]
    rw [filter_relay_pairs]
    rw [List.map_congr_left (fun r hr => formDecode_formEncode r (hrel r hr))]
    exact List.map_id relays
  · rw [List.filter_append, List.filter_append]
    rw [filter_other_pairs (strBytes "secret")
      (relays.map (fun r => (strBytes "relay", formDecode (formEncode r))))
      (by
        intro q hq
        obtain ⟨r, hr, hre⟩ := List.mem_map.mp hq
        rw [← hre]
        exact (by decide : ((strBytes "relay" : Bytes)) ≠ strBytes "secret"))]
    rw [filter_other_pairs (strBytes "secret")
      (extra.map (fun q => (formDecode (formEncode q.1), formDecode (formEncode q.2))))
      (by
        intro q hq
        obtain ⟨q0, hq0, hq0e⟩ := List.mem_map.mp hq
        rw [← hq0e]
        exact (hextra q0 hq0).2)]
    rw [show ([((formDecode (formEncode (strBytes "secret")),
        formDecode (formEncode secret)))].filter
          (fun q => q.1 = strBytes "secret")) =
        [(formDecode (formEncode (strBytes "secret")), formDecode (formEncode secret))]
        from by simp [hkeyS]]
    rw [formDecode_formEncode secret hsec]
    rfl

/-- C8. The invitation URI round-trips: parsing the URI built by
`createNostrConnectURI` — for any client pubkey free of `?`, any nonempty
relay list and secret made of genuine bytes, and any name/perms options —
recovers exactly the client pubkey, the relay list in order, and the
secret. -/
theorem createNostrConnectURI_roundtrip (p : ConnectURIParams)
    (hpk : 0x3F ∉ p.clientPubkey)
    (hrel : ∀ r ∈ p.relays, validBytes r)
    (hsec : validBytes p.secret)
    (hne : p.relays ≠ []) :
    parseNostrConnectURI (createNostrConnectURI p)
      = some { clientPubkey := p.clientPubkey, relays := p.relays,
               secret := some p.secret } := by
  have hkeyN : formDecode (formEncode (strBytes "name")) = strBytes "name" :=
    formDecode_formEncode _ (by unfold validBytes; decide)
  have hkeyP : formDecode (formEncode (strBytes "perms")) = strBytes "perms" :=
    formDecode_formEncode _ (by unfold validBytes; decide)
  have hextra : ∀ q ∈ ((match p.name with
        | some n => [(strBytes "name", n)]
        | none => ([] : List (Bytes × Bytes)))
      ++ (if p.perms.length > 0
          then [(strBytes "perms", joinBytes 0x2C p.perms)] else [])),
      formDecode (formEncode q.1) ≠ strBytes "relay"
      ∧ formDecode (formEncode q.1) ≠ strBytes "secret" := by
    intro q hq
    rw [List.mem_append] at hq
    rcases hq with hq | hq
    · cases hn : p.name with
      | none =>
        rw [hn] at hq
        cases hq
      | some n =>
        rw [hn] at hq
        simp at hq
        rw [hq]
        rw [show ((strBytes "name", n) : Bytes × Bytes).1 = strBytes "name" from rfl,
          hkeyN]
        exact ⟨by decide, by decide⟩
    · by_cases hp : p.perms.length > 0
      · rw [if_pos hp] at hq
        simp at hq
        rw [hq]
        rw [show ((strBytes "perms", joinBytes 0x2C p.perms) : Bytes × Bytes).1
            = strBytes "perms" from rfl, hkeyP]
        exact ⟨by decide, by decide⟩
      · rw [if_neg hp] at hq
        cases hq
  obtain ⟨hR, hS⟩ := roundtrip_pairs p.relays p.secret _ hrel hsec hextra
  have hne2 : (connectURIQueryPairs p).map serializePair ≠ [] := by
    simp [connectURIQueryPairs]
  have hAmpFree : ∀ x ∈ (connectURIQueryPairs p).map serializePair, 0x26 ∉ x := by
    intro x hx
    obtain ⟨q, hq, hqe⟩ := List.mem_map.mp hx
    rw [← hqe]
    exact amp_not_mem_serializePair q
  unfold parseNostrConnectURI createNostrConnectURI serializeQuery
  rw [List.append_assoc]
  rw [stripLeading_append]
  dsimp only
  rw [splitFirst_append 0x3F p.clientPubkey _ hpk]
  dsimp only
  rw [splitSep_join 0x26 _ hne2 hAmpFree]
  unfold connectURIQueryPairs
  rw [List.append_assoc (p.relays.map (fun r => (strBytes "relay", r))
    ++ [(strBytes "secret", p.secret)])]
  rw [hR, hS]

/-- Witness for C8: a concrete invitation with two relays, a name and a
perms list round-trips to exactly its pubkey, relays and secret. -/
theorem createNostrConnectURI_roundtrip_witness :
    parseNostrConnectURI (createNostrConnectURI uriParamsX)
      = some { clientPubkey := uriParamsX.clientPubkey,
               relays := uriParamsX.relays,
               secret := some uriParamsX.secret } :=
  createNostrConnectURI_roundtrip uriParamsX
    (by decide)
    (by unfold validBytes; decide)
    (by unfold validBytes; decide)
    (by decide)
